import Mathlib

set_option autoImplicit false

set_option maxRecDepth 100000

namespace GnssAnomaly

section

attribute [local semireducible] Rat.add Rat.sub Rat.mul Rat.inv Rat.ofScientific

/-!
Verification of the GNSS anomaly-detection core (decomposer, anomaly scorer,
robust MAD validator, synthetic benchmark) against its specification.

The Python modules are shallowly embedded: pandas series become `List ℚ`
(optionally `List (Option ℚ)` where missing values matter), data frames become
association lists from column names to columns, and the external collaborators
(sklearn's `IsolationForest.fit_predict`, statsmodels' `seasonal_decompose`,
numpy's global random generator and `np.sin`) become explicit function
parameters, since their code is not part of this repository.
-/

/-! Generic list helpers -/

/-- Mapping of `f` over `l` together with element positions,
counting positions from `i` (a helper for positional pandas operations). -/
def mapIdxFrom {α β : Type} (f : ℕ → α → β) : ℕ → List α → List β
  | _, [] => []
  | i, x :: xs => f i x :: mapIdxFrom f (i + 1) xs

/-- Positional map with indices starting at `0`. -/
def idxMap {α β : Type} (f : ℕ → α → β) (l : List α) : List β :=
  mapIdxFrom f 0 l

/-! Robust Validator (`verify_mad.py`) -/

/-- pandas `Series.median` on a fully observed series: middle element of the
sorted data, or the mean of the two middle elements for even length.
Returns the junk value `0` on the empty series (pandas returns `NaN`). -/
def median (l : List ℚ) : ℚ :=
  let s := List.insertionSort (fun a b => a ≤ b) l
  if l.length = 0 then 0
  else if l.length % 2 = 1 then s.getD (l.length / 2) 0
  else (s.getD (l.length / 2 - 1) 0 + s.getD (l.length / 2) 0) / 2

/-- The MAD of `verify_mad.calculate_mad_zscore`: median of absolute
deviations from the series median. -/
def madValue (series : List ℚ) : ℚ :=
  median (series.map (fun x => |x - median series|))

/-- Source: `verify_mad.calculate_mad_zscore`.  Modified Z-Score
`0.6745 * (x - median) / MAD`, or the all-zero series when `MAD = 0`. -/
def calculate_mad_zscore (series : List ℚ) : List ℚ :=
  if madValue series = 0 then series.map (fun _ => 0)
  else series.map (fun x => 6745 / 10000 * (x - median series) / madValue series)

/-- Source: `verify_mad.verify_results`, line `mad_anomalies = np.abs(mad_scores) > 3.5`:
the validator's ANOMALOUS flag per day. -/
def madFlags (series : List ℚ) : List Bool :=
  (calculate_mad_zscore series).map (fun z => decide (|z| > 7 / 2))

/-! Reconciliation statistics (`verify_mad.verify_results`, summary block)

`is_ai_anom` and `is_mad_anom` are the per-day Boolean flag series; the code
computes `count_both = (is_ai_anom & is_mad_anom).sum()`,
`union = (is_ai_anom | is_mad_anom).sum()` and
`similarity = count_both / union * 100 if union > 0 else 0.0`. -/

/-- Count `(is_ai_anom & is_mad_anom).sum()`: days flagged by both methods. -/
def countBoth (ai mad : List Bool) : ℕ :=
  (List.zipWith (fun a b => if a && b then (1 : ℕ) else 0) ai mad).sum

/-- Count `(is_ai_anom | is_mad_anom).sum()`: days flagged by either method. -/
def countUnion (ai mad : List Bool) : ℕ :=
  (List.zipWith (fun a b => if a || b then (1 : ℕ) else 0) ai mad).sum

/-- Source: `verify_mad.verify_results`, the per-station agreement statistic
`similarity = (count_both / union * 100) if union > 0 else 0.0`. -/
def similarityStat (ai mad : List Bool) : ℚ :=
  if 0 < countUnion ai mad then (countBoth ai mad : ℚ) / (countUnion ai mad : ℚ) * 100
  else 0

/-- The set of days a Boolean flag series marks anomalous. -/
def flaggedSet (l : List Bool) : Finset ℕ :=
  (Finset.range l.length).filter (fun i => l.getD i false = true)

/-- The spec's words: Jaccard similarity `= |intersection of anomalous sets| /
|union of anomalous sets|`, `0` when the union is empty. -/
def jaccardSpec (ai mad : List Bool) : ℚ :=
  if flaggedSet ai ∪ flaggedSet mad = ∅ then 0
  else ((flaggedSet ai ∩ flaggedSet mad).card : ℚ) /
    ((flaggedSet ai ∪ flaggedSet mad).card : ℚ)

/-! Decomposer (`preprocess.remove_physics`)

A station/axis series is a `List (Option ℚ)`; `none` is a missing day.
`df.interpolate(method='linear', limit=5)` fills a missing entry only when a
valid entry precedes it within distance 5 (pandas' forward `limit` counts
consecutive NaNs filled after the last valid observation); the filled value
lies on the straight line through the surrounding valid samples (`np.interp`),
clamped to the last valid value when no valid sample follows. -/

/-- Index of the last non-missing entry strictly before `i`, if any. -/
def lastValidBefore (l : List (Option ℚ)) : ℕ → Option ℕ
  | 0 => none
  | i + 1 => if (l.getD i none).isSome then some i else lastValidBefore l i

/-- Index of the first non-missing entry of a series, if any. -/
def firstValidIdx : List (Option ℚ) → Option ℕ
  | [] => none
  | some _ :: _ => some 0
  | none :: t => (firstValidIdx t).map (· + 1)

/-- Index of the first non-missing entry strictly after `i`, if any. -/
def nextValidAfter (l : List (Option ℚ)) (i : ℕ) : Option ℕ :=
  (firstValidIdx (l.drop (i + 1))).map (fun o => i + 1 + o)

/-- Source: `preprocess.remove_physics`, line
`df_filled = df_clean.interpolate(method='linear', limit=5)`, on one column
(for an arbitrary `limit`). -/
def interpolateLinear (limit : ℕ) (l : List (Option ℚ)) : List (Option ℚ) :=
  idxMap (fun i x =>
    match x with
    | some v => some v
    | none =>
      match lastValidBefore l i with
      | none => none
      | some j =>
        if limit < i - j then none
        else
          match l.getD j none, nextValidAfter l i with
          | some vj, some k =>
            match l.getD k none with
            | some vk => some (vj + (vk - vj) * ((i : ℚ) - (j : ℚ)) / ((k : ℚ) - (j : ℚ)))
            | none => none
          | some vj, none => some vj
          | none, _ => none) l

/-! Fallback structure of `remove_physics`

`remove_physics` interpolates the data frame (`limit=5`) and then, per axis
column, attempts `seasonal_decompose`; on an exception it falls back to a
degree-1 `np.polyfit` detrend, and only when the interpolated column has more
than 10 non-missing values.  `decomp` abstracts
`seasonal_decompose(series, model='additive', period=365,
extrapolate_trend='freq').resid`: it receives the non-missing values of the
interpolated column (`df_filled[col].dropna()`) and returns their residuals
in order, or `none` when the call raises. -/

/-- Sum of a positionally weighted series, `Σ i · vals[i]` (for `polyfit`). -/
def weightedIdxSum (vals : List ℚ) : ℚ :=
  (idxMap (fun i v => (i : ℚ) * v) vals).sum

/-- Slope of the least-squares line `np.polyfit(range(len(vals)), vals, 1)`. -/
def polyfitSlope (vals : List ℚ) : ℚ :=
  let n : ℚ := vals.length
  let sx : ℚ := ((List.range vals.length).map (fun i => (i : ℚ))).sum
  let sxx : ℚ := ((List.range vals.length).map (fun i => (i : ℚ) * (i : ℚ))).sum
  (n * weightedIdxSum vals - sx * vals.sum) / (n * sxx - sx * sx)

/-- Intercept of the least-squares line `np.polyfit(range(len(vals)), vals, 1)`. -/
def polyfitIntercept (vals : List ℚ) : ℚ :=
  let n : ℚ := vals.length
  let sx : ℚ := ((List.range vals.length).map (fun i => (i : ℚ))).sum
  (vals.sum - polyfitSlope vals * sx) / n

/-- Reindexing `res.resid.reindex(df_clean.index)`: place the residual values back at the
non-missing positions of the interpolated column; every other position is
missing. -/
def scatterValid : List (Option ℚ) → List ℚ → List (Option ℚ)
  | [], _ => []
  | none :: t, rs => none :: scatterValid t rs
  | some _ :: t, [] => none :: scatterValid t []
  | some _ :: t, r :: rs => some r :: scatterValid t rs

/-- Fallback write-back `df_clean.loc[vals.index, col] = vals - trend`: write the detrended values
at the non-missing positions of the interpolated column and keep the original
column's entries everywhere else. -/
def scatterValidKeep : List (Option ℚ) → List (Option ℚ) → List ℚ → List (Option ℚ)
  | [], _, _ => []
  | o :: ot, [], _ => o :: ot
  | o :: ot, none :: ft, rs => o :: scatterValidKeep ot ft rs
  | o :: ot, some _ :: ft, [] => o :: scatterValidKeep ot ft []
  | _ :: ot, some _ :: ft, r :: rs => some r :: scatterValidKeep ot ft rs

/-- Source: `preprocess.remove_physics` restricted to one axis column
(the function treats the `east`, `north`, `up` columns independently). -/
def removePhysicsAxis (decomp : List ℚ → Option (List ℚ))
    (col : List (Option ℚ)) : List (Option ℚ) :=
  let filled := interpolateLinear 5 col
  let vals := filled.filterMap id
  match decomp vals with
  | some resid => scatterValid filled resid
  | none =>
    if 10 < vals.length then
      let a := polyfitSlope vals
      let b := polyfitIntercept vals
      scatterValidKeep col filled (idxMap (fun i v => v - (a * (i : ℚ) + b)) vals)
    else col

/-! Synthetic benchmark (`benchmark_synthetic.py`)

Constants: `DAYS = 365 * 4`, `NOISE_LEVEL = 2.0`, `SEASONAL_AMP = 6.0`.
numpy's global generator is modelled as a stream of standard-normal draws
`g : ℕ → ℚ` with a cursor: `np.random.normal(0, sigma, n)` returns the next
`n` draws scaled by `sigma` and advances the cursor.  `np.sin` is abstracted
by the `season` parameter (`SEASONAL_AMP * sin(2π t / 365.25)` at day `t`).
The deterministic chain `feature_engineering → StandardScaler →
IsolationForest(n_estimators=200, contamination=0.05, random_state=42)
.fit_predict → (preds == -1)` is abstracted by the `detector` parameter
mapping the injected signal to per-day detection flags. -/

/-- numpy's global random generator: an unbounded stream of standard-normal
draws and the cursor of the next unread draw. -/
structure RngStream where
  g : ℕ → ℚ
  pos : ℕ

/-- Draw `np.random.normal(0, sigma, n)`: the next `n` draws scaled by `sigma`. -/
def normalDraws (sigma : ℚ) (n : ℕ) (r : RngStream) : List ℚ × RngStream :=
  ((List.range n).map (fun k => sigma * r.g (r.pos + k)), ⟨r.g, r.pos + n⟩)

/-- Constant `DAYS = 365 * 4`. -/
def DAYS : ℕ := 365 * 4

/-- Source: `benchmark_synthetic.generate_clean_signal`:
`signal = season + noise`, `is_anomaly = 0`. -/
def generate_clean_signal (season : ℕ → ℚ) (r : RngStream) :
    (List ℚ × List ℕ) × RngStream :=
  let draw := normalDraws 2 DAYS r
  ((idxMap (fun t v => season t + v) draw.1, List.replicate DAYS 0), draw.2)

/-- Source: `benchmark_synthetic.inject_anomalies`.  The 20-day noise burst
`np.random.normal(0, NOISE_LEVEL * 4, 20)` is drawn before the injection and
passed in as `burst`.  `int(L * 0.25)`, `int(L * 0.5)`, `int(L * 0.75)` are the
exact floors `L / 4`, `L / 2`, `3 * L / 4` (multiplication of an integer-valued
float by 0.25/0.5/0.75 is exact).  `none` models the `ValueError` pandas raises
when a fixed-length window assignment does not fit the series. -/
def inject_anomalies (burst : List ℚ) (ramp_slope : ℚ) (sig : List ℚ) (gt : List ℕ) :
    Option (List ℚ × List ℕ) :=
  let L := sig.length
  let t1 := L / 4
  let t2 := L / 2
  let t3 := 3 * L / 4
  if t2 + 60 ≤ L ∧ t3 + 20 ≤ L ∧ burst.length = 20 then
    let sig1 := idxMap (fun i v => if t1 ≤ i then v + 15 else v) sig
    let gt1 := idxMap (fun i gv => if t1 ≤ i ∧ i < t1 + 3 then 1 else gv) gt
    let sig2 := idxMap (fun i v =>
      if t2 ≤ i ∧ i < t2 + 60 then v + ((i - t2 : ℕ) : ℚ) * ramp_slope else v) sig1
    let gt2 := idxMap (fun i gv => if t2 ≤ i ∧ i < t2 + 60 then 1 else gv) gt1
    let sig3 := idxMap (fun i v =>
      if t3 ≤ i ∧ i < t3 + 20 then v + burst.getD (i - t3) 0 else v) sig2
    let gt3 := idxMap (fun i gv => if t3 ≤ i ∧ i < t3 + 20 then 1 else gv) gt2
    some (sig3, gt3)
  else none

/-- The recall computed from the injected data:
`overlap = (is_anomaly & detected).sum()`, `recall = overlap / is_anomaly.sum() * 100`
(`none` when the injection raises). -/
def recallOf (detector : List ℚ → List Bool) (burst : List ℚ) (slope_val : ℚ)
    (sig : List ℚ) (gt : List ℕ) : Option ℚ :=
  match inject_anomalies burst slope_val sig gt with
  | some dirty =>
    some
      ((((List.zipWith (fun gv d => if gv = 1 ∧ d = true then (1 : ℕ) else 0)
            dirty.2 (detector dirty.1)).sum : ℕ) : ℚ) /
        ((dirty.2.sum : ℕ) : ℚ) * 100)
  | none => none

/-- Source: `benchmark_synthetic.calculate_recall_only`:
generate the clean signal, draw the burst, inject, detect, and return the
recall, threading numpy's global generator state. -/
def calculate_recall_only (detector : List ℚ → List Bool) (season : ℕ → ℚ)
    (slope_val : ℚ) (r : RngStream) : Option ℚ × RngStream :=
  let gen := generate_clean_signal season r
  let bdraw := normalDraws 8 20 gen.2
  (recallOf detector bdraw.1 slope_val gen.1.1 gen.1.2, bdraw.2)

/-- The detector used in the C8 counterexample: flag a day exactly when the
signal exceeds `10^6` (a deterministic function of the signal, as the seeded
`feature_engineering → StandardScaler → IsolationForest` chain is). -/
def thresholdDetector (sig : List ℚ) : List Bool :=
  sig.map (fun v => decide (1000000 < v))

/-- The draw stream used in the C8 counterexample: the first run reads 1480
zeros, every later draw is `10^6`. -/
def quietThenLoudStream : RngStream :=
  ⟨fun i => if i < 1480 then 0 else 1000000, 0⟩

/-! Anomaly Scorer (`detect_anomalies.py`)

The model-input matrix is an association list of named columns over a shared
daily calendar of `nrows` days.  `fp` abstracts
`IsolationForest(n_estimators=200, contamination, random_state=42)
.fit_predict`: it maps the active-day training rows (3-vectors of normalized
values) to one prediction per row (`1` normal, `-1` anomalous); being seeded,
it is a deterministic function of its input.  `Except.error ()` models the
`KeyError` pandas raises when `df[cols_mm]` is asked for an absent column. -/

/-- A pandas `DataFrame`: named columns over a calendar of `nrows` days. -/
structure DF where
  nrows : ℕ
  cols : List (String × List ℚ)

/-- Column lookup by name (the first match, as pandas column names are unique). -/
def lookupCol : List (String × List ℚ) → String → Option (List ℚ)
  | [], _ => none
  | (n, v) :: t, c => if n = c then some v else lookupCol t c

/-- Column access `df[c]`, as an `Option`. -/
def DF.get (df : DF) (c : String) : Option (List ℚ) :=
  lookupCol df.cols c

/-- Replace the value of an existing column. -/
def replaceCol : List (String × List ℚ) → String → List ℚ → List (String × List ℚ)
  | [], _, _ => []
  | (n, w) :: t, c, v =>
    if n = c then (c, v) :: replaceCol t c v else (n, w) :: replaceCol t c v

/-- Column assignment `df[c] = v`: overwrite the column when present, append it otherwise. -/
def DF.setCol (df : DF) (c : String) (v : List ℚ) : DF :=
  if df.cols.any (fun p => p.1 = c) then ⟨df.nrows, replaceCol df.cols c v⟩
  else ⟨df.nrows, df.cols ++ [(c, v)]⟩

/-- Python's `str.endswith`. -/
def strEndsWith (s suffix : String) : Bool :=
  suffix.data.isSuffixOf s.data

/-- Strip `n` trailing characters (`c.replace("_east_norm", "")` on a column
name that ends with this 10-character suffix). -/
def strDropRight (s : String) (n : ℕ) : String :=
  ⟨s.data.take (s.data.length - n)⟩

/-- Python's string `<=` (code-point lexicographic order), used by `sorted`. -/
def charListLe : List Char → List Char → Bool
  | [], _ => true
  | _ :: _, [] => false
  | a :: as, b :: bs =>
    if a.val < b.val then true
    else if b.val < a.val then false
    else charListLe as bs

/-- Source: `detect_anomalies.detect_anomalies_per_station`, line
`station_names = sorted({c.replace("_east_norm", "") for c in df.columns
if c.endswith("_east_norm")})`. -/
def stationNames (df : DF) : List String :=
  List.insertionSort (fun a b => charListLe a.data b.data = true)
    ((df.cols.filterMap (fun p =>
      if strEndsWith p.1 "_east_norm" then some (strDropRight p.1 10) else none)).dedup)

/-- Simultaneous map over three columns (row-wise combination). -/
def zip3With {α β γ δ : Type} (f : α → β → γ → δ) :
    List α → List β → List γ → List δ
  | a :: as, b :: bs, c :: cs => f a b c :: zip3With f as bs cs
  | _, _, _ => []

/-- Mask `active_mask = df[cols_mm].abs().sum(axis=1) > 0.0001` for one station's
three physical-unit axis columns. -/
def activeMaskOf (em nm um : List ℚ) : List Bool :=
  zip3With (fun a b c => decide ((1 : ℚ) / 10000 < |a| + |b| + |c|)) em nm um

/-- Row filter `X_train = station_data[active_mask]`: keep the rows where the mask holds. -/
def maskFilter {α : Type} : List α → List Bool → List α
  | x :: xs, b :: bs => if b then x :: maskFilter xs bs else maskFilter xs bs
  | _, _ => []

/-- Masked write `final_results.loc[active_mask, col] = preds`: write the predictions, in
order, at the mask's `true` positions; keep the old value elsewhere. -/
def scatterMasked : List ℚ → List Bool → List ℚ → List ℚ
  | [], _, _ => []
  | o :: os, [], _ => o :: os
  | _ :: os, true :: bs, p :: ps => p :: scatterMasked os bs ps
  | o :: os, true :: bs, [] => o :: scatterMasked os bs []
  | o :: os, false :: bs, ps => o :: scatterMasked os bs ps

/-- The station's activity mask, from its physical-unit (mm) columns. -/
def stationMask (df : DF) (s : String) : List Bool :=
  match df.get (s ++ "_east"), df.get (s ++ "_north"), df.get (s ++ "_up") with
  | some em, some nm, some um => activeMaskOf em nm um
  | _, _, _ => []

/-- The station's full row matrix of normalized features. -/
def stationTrainRows (df : DF) (s : String) : List (ℚ × ℚ × ℚ) :=
  match df.get (s ++ "_east_norm"), df.get (s ++ "_north_norm"),
      df.get (s ++ "_up_norm") with
  | some e, some n, some u => zip3With (fun a b c => (a, b, c)) e n u
  | _, _, _ => []

/-- The training set: active-day rows only. -/
def trainX (df : DF) (s : String) : List (ℚ × ℚ × ℚ) :=
  maskFilter (stationTrainRows df s) (stationMask df s)

/-- All three `_norm` feature columns present
(`all(c in df.columns for c in train_cols)`). -/
def normColsPresent (df : DF) (s : String) : Bool :=
  (df.get (s ++ "_east_norm")).isSome && (df.get (s ++ "_north_norm")).isSome &&
    (df.get (s ++ "_up_norm")).isSome

/-- All three physical-unit (mm) columns present. -/
def mmColsPresent (df : DF) (s : String) : Bool :=
  (df.get (s ++ "_east")).isSome && (df.get (s ++ "_north")).isSome &&
    (df.get (s ++ "_up")).isSome

/-- The station is skipped: a required feature column is missing, or there are
no active days (`X_train.empty`). -/
def skippedStation (df : DF) (s : String) : Bool :=
  !(normColsPresent df s) || (trainX df s).isEmpty

/-- The per-station body of the scoring loop.  `acc` is `final_results`;
`df` is the immutable input matrix the features are read from. -/
def processStation (fp : List (ℚ × ℚ × ℚ) → List ℚ) (df : DF) (acc : DF)
    (s : String) : Except Unit DF :=
  match df.get (s ++ "_east_norm"), df.get (s ++ "_north_norm"),
      df.get (s ++ "_up_norm") with
  | some e, some n, some u =>
    match df.get (s ++ "_east"), df.get (s ++ "_north"), df.get (s ++ "_up") with
    | some em, some nm, some um =>
      let mask := activeMaskOf em nm um
      let xtrain := maskFilter (zip3With (fun a b c => (a, b, c)) e n u) mask
      if xtrain.isEmpty then Except.ok acc
      else
        Except.ok (acc.setCol (s ++ "_anomaly")
          (scatterMasked ((acc.get (s ++ "_anomaly")).getD []) mask (fp xtrain)))
    | _, _, _ => Except.error ()
  | _, _, _ => Except.ok acc

/-- Initialization `final_results[f"{station}_anomaly"] = 1` for every detected station. -/
def initAnomalyCols (df : DF) (stations : List String) : DF :=
  stations.foldl (fun acc s => acc.setCol (s ++ "_anomaly")
    (List.replicate df.nrows 1)) df

/-- Source: `detect_anomalies.detect_anomalies_per_station`: initialize every
station's anomaly column to `1` (NORMAL), then train and score station by
station, skipping stations with missing feature columns or no active days. -/
def detect_anomalies_per_station (fp : List (ℚ × ℚ × ℚ) → List ℚ) (df : DF) :
    Except Unit DF :=
  (stationNames df).foldlM (fun acc s => processStation fp df acc s)
    (initAnomalyCols df (stationNames df))

/-- The batch ran to completion without raising. -/
def runsOk (e : Except Unit DF) : Bool :=
  match e with
  | Except.ok _ => true
  | Except.error _ => false

/-- A column of the written results (`none` when the batch raised or the
column is absent). -/
def resultCol (e : Except Unit DF) (c : String) : Option (List ℚ) :=
  match e with
  | Except.ok r => r.get c
  | Except.error _ => none

/-- The station's anomaly label on day `i`. -/
def labelAt (e : Except Unit DF) (s : String) (i : ℕ) : Option ℚ :=
  (resultCol e (s ++ "_anomaly")).map (fun l => l.getD i 0)

/-- Every column holds one value per calendar day. -/
@[reducible] def wfLengths (df : DF) : Prop :=
  ∀ p ∈ df.cols, (p : String × List ℚ).2.length = df.nrows

/-- No input column is named like an anomaly output column. -/
@[reducible] def noAnomalyClash (df : DF) : Prop :=
  ∀ s ∈ stationNames df, df.get (s ++ "_anomaly") = none

/-- Stations with all three `_norm` columns also carry the mm columns those
were derived from (true of every matrix `preprocess.py` writes). -/
@[reducible] def mmBacked (df : DF) : Prop :=
  ∀ s ∈ stationNames df, normColsPresent df s = true → mmColsPresent df s = true

/-- The net effect of one loop iteration on the station's own anomaly column. -/
def stationEffect (fp : List (ℚ × ℚ × ℚ) → List ℚ) (df : DF) (s : String)
    (old : Option (List ℚ)) : Option (List ℚ) :=
  if skippedStation df s then old
  else some (scatterMasked (old.getD []) (stationMask df s) (fp (trainX df s)))

/-! Lemmas, claim theorems, witnesses and counterexamples -/

theorem length_mapIdxFrom {α β : Type} (f : ℕ → α → β) :
    ∀ (i : ℕ) (l : List α), (mapIdxFrom f i l).length = l.length := by
  intro i l
  induction l generalizing i with
  | nil => rfl
  | cons x xs ih => simp [mapIdxFrom, ih]

theorem getD_mapIdxFrom {α β : Type} (f : ℕ → α → β) (dα : α) (dβ : β) :
    ∀ (j : ℕ) (l : List α) (i : ℕ), i < l.length →
      (mapIdxFrom f j l).getD i dβ = f (j + i) (l.getD i dα) := by
  intro j l
  induction l generalizing j with
  | nil => intro i hi; simp at hi
  | cons x xs ih =>
    intro i hi
    cases i with
    | zero => simp [mapIdxFrom]
    | succ k =>
      have hk : k < xs.length := by simpa using hi
      simp only [mapIdxFrom, List.getD_cons_succ]
      rw [ih (j + 1) k hk]
      ring_nf

theorem length_idxMap {α β : Type} (f : ℕ → α → β) (l : List α) :
    (idxMap f l).length = l.length :=
  length_mapIdxFrom f 0 l

theorem getD_idxMap {α β : Type} (f : ℕ → α → β) (dα : α) (dβ : β)
    (l : List α) (i : ℕ) (hi : i < l.length) :
    (idxMap f l).getD i dβ = f i (l.getD i dα) := by
  simpa using getD_mapIdxFrom f dα dβ 0 l i hi

theorem getD_map_of_lt {α β : Type} (f : α → β) (l : List α) (i : ℕ)
    (hi : i < l.length) (dβ : β) (dα : α) :
    (l.map f).getD i dβ = f (l.getD i dα) := by
  rw [List.getD_eq_getElem _ _ (by simpa using hi), List.getD_eq_getElem _ _ hi,
    List.getElem_map]

theorem getD_of_perm_replicate {n : ℕ} {c : ℚ} {s : List ℚ}
    (h : s.Perm (List.replicate n c)) (i : ℕ) (hi : i < n) : s.getD i 0 = c := by
  have hlen : s.length = n := by simpa using h.length_eq
  have hi' : i < s.length := by omega
  rw [List.getD_eq_getElem _ _ hi']
  have hmem : s[i] ∈ s := List.getElem_mem hi'
  have : s[i] ∈ List.replicate n c := h.mem_iff.mp hmem
  exact List.eq_of_mem_replicate this

theorem median_replicate (n : ℕ) (c : ℚ) (hn : 0 < n) :
    median (List.replicate n c) = c := by
  unfold median
  have hperm : (List.insertionSort (fun a b => a ≤ b) (List.replicate n c)).Perm
      (List.replicate n c) := List.perm_insertionSort _ _
  have hlen : (List.replicate n c).length = n := List.length_replicate n c
  rw [hlen]
  have h1 : n / 2 < n := Nat.div_lt_self hn (by norm_num)
  by_cases hodd : n % 2 = 1
  · rw [if_neg (by omega : ¬ n = 0), if_pos hodd]
    exact getD_of_perm_replicate hperm _ h1
  · have h2 : n / 2 - 1 < n := by omega
    simp only [if_neg (by omega : ¬ n = 0), if_neg hodd]
    rw [getD_of_perm_replicate hperm _ h1, getD_of_perm_replicate hperm _ h2]
    ring

theorem madValue_replicate (n : ℕ) (c : ℚ) : madValue (List.replicate n c) = 0 := by
  cases n with
  | zero => simp [madValue, median]
  | succ m =>
    unfold madValue
    rw [median_replicate _ c (Nat.succ_pos m), List.map_replicate]
    simp only [sub_self, abs_zero]
    exact median_replicate _ 0 (Nat.succ_pos m)

/-- C4: for every series with nonzero MAD, `calculate_mad_zscore` returns at
each day exactly `0.6745 * (x - median) / MAD` (median of the series, MAD the
median of absolute deviations from it), and the validator flags a day
ANOMALOUS exactly when the absolute score exceeds `3.5`. -/
theorem mad_zscore_formula_and_threshold (series : List ℚ) (h : madValue series ≠ 0)
    (i : ℕ) (hi : i < series.length) :
    (calculate_mad_zscore series).getD i 0 =
      6745 / 10000 * (series.getD i 0 - median series) / madValue series ∧
    ((madFlags series).getD i false = true ↔
      |6745 / 10000 * (series.getD i 0 - median series) / madValue series| > 7 / 2) := by
  constructor
  · unfold calculate_mad_zscore
    rw [if_neg h]
    exact getD_map_of_lt _ _ _ hi _ 0
  · unfold madFlags calculate_mad_zscore
    rw [if_neg h, List.map_map]
    rw [getD_map_of_lt _ _ _ hi _ 0]
    simp

/-- Witness for C4 at the concrete series `[1, 2, 3, 4, 100]` (median `3`,
MAD `1`, score `65.4265` at day `4`, flagged). -/
theorem mad_zscore_formula_and_threshold_witness :
    madValue [1, 2, 3, 4, 100] ≠ 0 ∧
    ((calculate_mad_zscore [1, 2, 3, 4, 100]).getD 4 0 =
        6745 / 10000 * (([1, 2, 3, 4, 100] : List ℚ).getD 4 0 - median [1, 2, 3, 4, 100]) /
          madValue [1, 2, 3, 4, 100] ∧
      ((madFlags [1, 2, 3, 4, 100]).getD 4 false = true ↔
        |6745 / 10000 * (([1, 2, 3, 4, 100] : List ℚ).getD 4 0 - median [1, 2, 3, 4, 100]) /
            madValue [1, 2, 3, 4, 100]| > 7 / 2)) :=
  ⟨by decide, mad_zscore_formula_and_threshold [1, 2, 3, 4, 100] (by decide) 4 (by decide)⟩

/-- C5: whenever the MAD is zero, `calculate_mad_zscore` returns all zeros over
the same index and no day is flagged by the Robust Validator; in particular
every constant series has zero MAD. -/
theorem mad_zscore_degenerate :
    (∀ series : List ℚ, madValue series = 0 →
        calculate_mad_zscore series = List.replicate series.length 0 ∧
        ∀ b ∈ madFlags series, b = false) ∧
    ∀ (n : ℕ) (c : ℚ), madValue (List.replicate n c) = 0 := by
  refine ⟨fun series h => ?_, madValue_replicate⟩
  have hz : calculate_mad_zscore series = List.replicate series.length 0 := by
    unfold calculate_mad_zscore
    rw [if_pos h]
    exact List.map_const' series 0
  refine ⟨hz, fun b hb => ?_⟩
  unfold madFlags at hb
  rw [hz, List.map_replicate] at hb
  exact (List.eq_of_mem_replicate hb).trans (by decide)

/-- Witness for C5 on the constant series `[5, 5, 5]`. -/
theorem mad_zscore_degenerate_witness :
    madValue [5, 5, 5] = 0 ∧ calculate_mad_zscore [5, 5, 5] = List.replicate 3 0 :=
  ⟨by decide, (mad_zscore_degenerate.1 [5, 5, 5] (by decide)).1⟩

theorem zipWith_indicator_sum (f : Bool → Bool → Bool) :
    ∀ (xs ys : List Bool), xs.length = ys.length →
      (List.zipWith (fun a b => if f a b then (1 : ℕ) else 0) xs ys).sum =
        ((Finset.range xs.length).filter
          (fun i => f (xs.getD i false) (ys.getD i false) = true)).card := by
  intro xs
  induction xs with
  | nil => intro ys h; simp
  | cons x xs ih =>
    intro ys h
    cases ys with
    | nil => simp at h
    | cons y ys =>
      have h' : xs.length = ys.length := by simpa using h
      simp only [List.zipWith_cons_cons, List.sum_cons, List.length_cons]
      rw [ih ys h', Finset.card_filter, Finset.card_filter, Finset.sum_range_succ']
      simp only [List.getD_cons_succ, List.getD_cons_zero]
      omega

theorem countBoth_eq_card_inter (ai mad : List Bool) (h : ai.length = mad.length) :
    countBoth ai mad = (flaggedSet ai ∩ flaggedSet mad).card := by
  unfold countBoth flaggedSet
  have hr : Finset.range mad.length = Finset.range ai.length := by rw [h]
  rw [zipWith_indicator_sum (fun a b => a && b) ai mad h, hr, ← Finset.filter_and]
  refine congrArg Finset.card (Finset.filter_congr ?_)
  intro i _
  simp [Bool.and_eq_true]

theorem countUnion_eq_card_union (ai mad : List Bool) (h : ai.length = mad.length) :
    countUnion ai mad = (flaggedSet ai ∪ flaggedSet mad).card := by
  unfold countUnion flaggedSet
  have hr : Finset.range mad.length = Finset.range ai.length := by rw [h]
  rw [zipWith_indicator_sum (fun a b => a || b) ai mad h, hr, ← Finset.filter_or]
  refine congrArg Finset.card (Finset.filter_congr ?_)
  intro i _
  simp [Bool.or_eq_true]

/-- C6 counterexample: with model flags `[true, true]` and MAD flags
`[true, false]` the code's agreement statistic is `50` (a percentage) while the
Jaccard similarity — intersection size over union size — is `1 / 2`, so the
statistic does not equal the Jaccard similarity as the claim states. -/
theorem similarity_differs_from_jaccard :
    similarityStat [true, true] [true, false] = 50 ∧
    jaccardSpec [true, true] [true, false] = 1 / 2 ∧
    similarityStat [true, true] [true, false] ≠ jaccardSpec [true, true] [true, false] := by
  refine ⟨by decide, by decide, by decide⟩

/-- C6 amended: for flag series over the same calendar, the agreement statistic
equals `100 ×` the Jaccard similarity of the two anomalous-day sets (the
similarity expressed in percent), and both are `0` when the union is empty. -/
theorem similarity_eq_percent_jaccard (ai mad : List Bool) (h : ai.length = mad.length) :
    similarityStat ai mad = 100 * jaccardSpec ai mad := by
  unfold similarityStat jaccardSpec
  rw [countBoth_eq_card_inter ai mad h, countUnion_eq_card_union ai mad h]
  by_cases hu : flaggedSet ai ∪ flaggedSet mad = ∅
  · simp [hu]
  · have hc : 0 < (flaggedSet ai ∪ flaggedSet mad).card :=
      Finset.card_pos.mpr (Finset.nonempty_iff_ne_empty.mpr hu)
    rw [if_pos hc, if_neg hu]
    ring

/-- Witness for C6 (amended) on flags `[true, false, true]` vs `[true, true, false]`. -/
theorem similarity_eq_percent_jaccard_witness :
    similarityStat [true, false, true] [true, true, false] =
      100 * jaccardSpec [true, false, true] [true, true, false] :=
  similarity_eq_percent_jaccard [true, false, true] [true, true, false] (by decide)

theorem getD_drop {α : Type} (l : List α) (n i : ℕ) (d : α) :
    (l.drop n).getD i d = l.getD (n + i) d := by
  simp [List.getD_eq_getElem?_getD, List.getElem?_drop]

theorem firstValidIdx_spec :
    ∀ (xs : List (Option ℚ)) (t : ℕ), t < xs.length → (xs.getD t none).isSome →
      (∀ u, u < t → xs.getD u none = none) → firstValidIdx xs = some t := by
  intro xs
  induction xs with
  | nil => intro t ht; simp at ht
  | cons x xs ih =>
    intro t ht hval hnone
    cases x with
    | some v =>
      cases t with
      | zero => rfl
      | succ t' =>
        have := hnone 0 (Nat.succ_pos t')
        simp at this
    | none =>
      cases t with
      | zero => simp at hval
      | succ t' =>
        have ht' : t' < xs.length := by simpa using ht
        have hval' : (xs.getD t' none).isSome := by simpa using hval
        have hnone' : ∀ u, u < t' → xs.getD u none = none := by
          intro u hu
          have := hnone (u + 1) (by omega)
          simpa using this
        simp [firstValidIdx, ih t' ht' hval' hnone']

theorem nextValidAfter_spec (l : List (Option ℚ)) (i k : ℕ) (hik : i < k)
    (hk : k < l.length) (hval : (l.getD k none).isSome)
    (hnone : ∀ u, i < u → u < k → l.getD u none = none) :
    nextValidAfter l i = some k := by
  unfold nextValidAfter
  have hlen : k - (i + 1) < (l.drop (i + 1)).length := by
    simp only [List.length_drop]
    omega
  have hval' : ((l.drop (i + 1)).getD (k - (i + 1)) none).isSome := by
    rw [getD_drop]
    have : i + 1 + (k - (i + 1)) = k := by omega
    rw [this]
    exact hval
  have hnone' : ∀ u, u < k - (i + 1) → (l.drop (i + 1)).getD u none = none := by
    intro u hu
    rw [getD_drop]
    exact hnone (i + 1 + u) (by omega) (by omega)
  rw [firstValidIdx_spec _ _ hlen hval' hnone']
  simp
  omega

theorem lastValidBefore_spec (l : List (Option ℚ)) (j : ℕ)
    (hv : (l.getD j none).isSome) :
    ∀ i, j < i → (∀ m, j < m → m < i → l.getD m none = none) →
      lastValidBefore l i = some j := by
  intro i
  induction i with
  | zero => intro h; omega
  | succ i' ih =>
    intro hji hnone
    by_cases hj : j = i'
    · subst hj
      simp only [lastValidBefore]
      rw [if_pos hv]
    · have hji' : j < i' := by omega
      have hni' : l.getD i' none = none := hnone i' hji' (by omega)
      have : ¬ (l.getD i' none).isSome := by rw [hni']; simp
      simp only [lastValidBefore, if_neg this]
      exact ih hji' (fun m hm hm' => hnone m hm (by omega))

/-- The value `interpolateLinear` produces inside a maximal interior gap:
`l` is valid at `j` and at `k`, missing strictly between them.  Positions at
distance at most `limit` from `j` are filled with the linear-interpolation
value; the rest of the gap stays missing. -/
theorem interpolate_gap_characterization (limit : ℕ) (l : List (Option ℚ))
    (j k m : ℕ) (vj vk : ℚ) (hj : l.getD j none = some vj)
    (hk : l.getD k none = some vk) (hk_lt : k < l.length)
    (hjm : j < m) (hmk : m < k)
    (hgap : ∀ u, j < u → u < k → l.getD u none = none) :
    (interpolateLinear limit l).getD m none =
      if m - j ≤ limit then
        some (vj + (vk - vj) * ((m : ℚ) - (j : ℚ)) / ((k : ℚ) - (j : ℚ)))
      else none := by
  have hm_lt : m < l.length := by omega
  unfold interpolateLinear
  rw [getD_idxMap _ none none l m hm_lt]
  have hmnone : l.getD m none = none := hgap m hjm hmk
  rw [hmnone]
  have hlast : lastValidBefore l m = some j :=
    lastValidBefore_spec l j (by rw [hj]; rfl) m hjm
      (fun u hu hu' => hgap u hu (by omega))
  have hnext : nextValidAfter l m = some k :=
    nextValidAfter_spec l m k hmk hk_lt (by rw [hk]; rfl)
      (fun u hu hu' => hgap u (by omega) hu')
  simp only [hlast, hnext, hj, hk]
  by_cases hle : m - j ≤ limit
  · rw [if_pos hle, if_neg (by omega)]
  · rw [if_neg hle, if_pos (by omega)]

/-- C1 counterexample: in the series `[0, ·, ·, ·, ·, ·, ·, 7]` the gap of 6
consecutive missing samples exceeds the limit 5, yet
`interpolate(method='linear', limit=5)` fills its first 5 positions (position 1
gets the on-the-line value 1); only the 6th missing position stays missing.
The claim that a gap longer than 5 is left entirely missing is false. -/
theorem interpolate_long_gap_partially_filled :
    (interpolateLinear 5
        [some 0, none, none, none, none, none, none, some 7]).getD 1 none = some 1 ∧
    (interpolateLinear 5
        [some 0, none, none, none, none, none, none, some 7]).getD 5 none = some 5 ∧
    (interpolateLinear 5
        [some 0, none, none, none, none, none, none, some 7]).getD 6 none = none := by
  refine ⟨by decide, by decide, by decide⟩

/-- C1 amended: inside a maximal interior gap of missing samples between valid
samples at `j` and `k`, every position within distance 5 of `j` is filled with
the linear-interpolation value `vj + (vk - vj)·(m - j)/(k - j)` — so a gap of
length at most 5 is filled completely — and every position farther than 5 from
`j` is left missing, so only the tail of a longer gap stays missing. -/
theorem interpolate_gap_limit5 (l : List (Option ℚ)) (j k m : ℕ) (vj vk : ℚ)
    (hj : l.getD j none = some vj) (hk : l.getD k none = some vk)
    (hk_lt : k < l.length) (hjm : j < m) (hmk : m < k)
    (hgap : ∀ u, j < u → u < k → l.getD u none = none) :
    (interpolateLinear 5 l).getD m none =
      if m - j ≤ 5 then
        some (vj + (vk - vj) * ((m : ℚ) - (j : ℚ)) / ((k : ℚ) - (j : ℚ)))
      else none :=
  interpolate_gap_characterization 5 l j k m vj vk hj hk hk_lt hjm hmk hgap

/-- Witness for C1 (amended) on `[0, ·, ·, 9]`: the missing position 1 of the
length-2 gap is filled with the interpolated value 3. -/
theorem interpolate_gap_limit5_witness :
    (interpolateLinear 5 [some 0, none, none, some 9]).getD 1 none =
      if 1 - 0 ≤ 5 then
        some (0 + (9 - 0) * (((1 : ℕ) : ℚ) - ((0 : ℕ) : ℚ)) / (((3 : ℕ) : ℚ) - ((0 : ℕ) : ℚ)))
      else none :=
  interpolate_gap_limit5 [some 0, none, none, some 9] 0 3 1 0 9 (by decide) (by decide)
    (by decide) (by decide) (by decide)
    (fun u h1 h2 => by interval_cases u <;> rfl)

/-- C9: when the decomposition raises for an axis and the interpolated column
has at most 10 non-missing values, `remove_physics` returns the axis column
with its original values unchanged — neither the seasonal removal nor the
linear-detrend fallback is applied. -/
theorem remove_physics_short_series_unchanged (decomp : List ℚ → Option (List ℚ))
    (col : List (Option ℚ))
    (hfail : decomp ((interpolateLinear 5 col).filterMap id) = none)
    (hshort : ((interpolateLinear 5 col).filterMap id).length ≤ 10) :
    removePhysicsAxis decomp col = col := by
  simp only [removePhysicsAxis]
  rw [hfail, if_neg (by omega)]

/-- Witness for C9: a 3-day series with a failing decomposition and only 3
non-missing interpolated values is returned untouched. -/
theorem remove_physics_short_series_unchanged_witness :
    (fun _ : List ℚ => (none : Option (List ℚ)))
        ((interpolateLinear 5 [some 1, none, some 4]).filterMap id) = none ∧
    ((interpolateLinear 5 [some 1, none, some 4]).filterMap id).length ≤ 10 ∧
    removePhysicsAxis (fun _ => none) [some 1, none, some 4] = [some 1, none, some 4] :=
  ⟨rfl, by decide,
    remove_physics_short_series_unchanged (fun _ => none) [some 1, none, some 4] rfl (by decide)⟩

theorem getD_zero_of_forall (l : List ℕ) (h : ∀ x ∈ l, x = 0) (i : ℕ) :
    l.getD i 0 = 0 := by
  by_cases hi : i < l.length
  · rw [List.getD_eq_getElem _ _ hi]
    exact h _ (List.getElem_mem hi)
  · rw [List.getD_eq_default _ _ (by omega)]

/-- C7: `inject_anomalies` adds the permanent `+15` step from `floor(0.25 L)`
to the end with ground truth `1` only on the window's first 3 days, adds the
ramp `(i - t2) * slope` on the 60-day window starting at `floor(0.5 L)` with
ground truth `1` on the whole window, adds the drawn burst on the 20-day window
starting at `floor(0.75 L)` with ground truth `1` there, and leaves ground
truth `0` outside the three windows (hypotheses: the initial ground truth is
all zeros, the burst has its drawn length 20, and the series is long enough
for the windows, `L ≥ 120`; on shorter series the window assignment raises). -/
theorem inject_anomalies_pointwise (burst : List ℚ) (slope : ℚ) (sig : List ℚ)
    (gt : List ℕ) (i : ℕ) (hb : burst.length = 20) (hglen : gt.length = sig.length)
    (hgz : ∀ x ∈ gt, x = 0) (hL : 120 ≤ sig.length) (hi : i < sig.length) :
    (inject_anomalies burst slope sig gt).map (fun p => p.1.getD i 0) =
      some (sig.getD i 0 + (if sig.length / 4 ≤ i then 15 else 0) +
        (if sig.length / 2 ≤ i ∧ i < sig.length / 2 + 60 then
          ((i - sig.length / 2 : ℕ) : ℚ) * slope else 0) +
        (if 3 * sig.length / 4 ≤ i ∧ i < 3 * sig.length / 4 + 20 then
          burst.getD (i - 3 * sig.length / 4) 0 else 0)) ∧
    (inject_anomalies burst slope sig gt).map (fun p => p.2.getD i 0) =
      some (if (sig.length / 4 ≤ i ∧ i < sig.length / 4 + 3) ∨
          (sig.length / 2 ≤ i ∧ i < sig.length / 2 + 60) ∨
          (3 * sig.length / 4 ≤ i ∧ i < 3 * sig.length / 4 + 20) then 1 else 0) := by
  have hguard : sig.length / 2 + 60 ≤ sig.length ∧ 3 * sig.length / 4 + 20 ≤ sig.length ∧
      burst.length = 20 := by
    refine ⟨by omega, by omega, hb⟩
  simp only [inject_anomalies]
  rw [if_pos hguard]
  simp only [Option.map_some']
  have hi1 : i < (idxMap (fun i v =>
      if sig.length / 4 ≤ i then v + 15 else v) sig).length := by
    rw [length_idxMap]; exact hi
  have hi2 : i < (idxMap (fun i v =>
      if sig.length / 2 ≤ i ∧ i < sig.length / 2 + 60 then
        v + ((i - sig.length / 2 : ℕ) : ℚ) * slope else v)
      (idxMap (fun i v => if sig.length / 4 ≤ i then v + 15 else v) sig)).length := by
    rw [length_idxMap, length_idxMap]; exact hi
  have hgi : i < gt.length := by omega
  have hgi1 : i < (idxMap (fun i gv =>
      if sig.length / 4 ≤ i ∧ i < sig.length / 4 + 3 then 1 else gv) gt).length := by
    rw [length_idxMap]; exact hgi
  have hgi2 : i < (idxMap (fun i gv =>
      if sig.length / 2 ≤ i ∧ i < sig.length / 2 + 60 then 1 else gv)
      (idxMap (fun i gv =>
        if sig.length / 4 ≤ i ∧ i < sig.length / 4 + 3 then 1 else gv) gt)).length := by
    rw [length_idxMap, length_idxMap]; exact hgi
  constructor
  · rw [getD_idxMap _ 0 0 _ i hi2, getD_idxMap _ 0 0 _ i hi1, getD_idxMap _ 0 0 _ i hi]
    split_ifs <;> ring_nf
  · rw [getD_idxMap _ 0 0 _ i hgi2, getD_idxMap _ 0 0 _ i hgi1, getD_idxMap _ 0 0 _ i hgi]
    rw [getD_zero_of_forall gt hgz i]
    split_ifs <;> first | rfl | tauto

/-- Witness for C7 at day 61 of a 120-day zero series with slope 2: the step
(from day 30) and the ramp (days 60–119) both apply, giving signal
`0 + 15 + 1·2 + 0` and ground truth `1`. -/
theorem inject_anomalies_pointwise_witness :
    ((inject_anomalies (List.replicate 20 (0 : ℚ)) 2 (List.replicate 120 (0 : ℚ))
        (List.replicate 120 (0 : ℕ))).map (fun p => p.1.getD 61 0) =
      some ((List.replicate 120 (0 : ℚ)).getD 61 0 + (if 30 ≤ 61 then 15 else 0) +
        (if 60 ≤ 61 ∧ 61 < 120 then ((61 - 60 : ℕ) : ℚ) * 2 else 0) +
        (if 90 ≤ 61 ∧ 61 < 110 then (List.replicate 20 (0 : ℚ)).getD (61 - 90) 0 else 0))) ∧
    ((inject_anomalies (List.replicate 20 (0 : ℚ)) 2 (List.replicate 120 (0 : ℚ))
        (List.replicate 120 (0 : ℕ))).map (fun p => p.2.getD 61 0) =
      some (if (30 ≤ 61 ∧ 61 < 33) ∨ (60 ≤ 61 ∧ 61 < 120) ∨ (90 ≤ 61 ∧ 61 < 110)
        then 1 else 0)) :=
  inject_anomalies_pointwise (List.replicate 20 0) 2 (List.replicate 120 0)
    (List.replicate 120 0) 61 (by decide) rfl
    (fun x hx => List.eq_of_mem_replicate hx) (by decide) (by decide)

/-- C8 counterexample: running `calculate_recall_only` twice in a row with the
same slope gives recall `0` (all signal values at most 74, nothing flagged)
and then recall `100` (every day's signal exceeds `2·10^6`, every day flagged):
the second run continues reading numpy's unseeded global generator where the
first run left it, so consecutive runs see different noise and the benchmark
is not deterministic across runs. -/
theorem recall_changes_across_consecutive_runs :
    (calculate_recall_only thresholdDetector (fun _ => 0) 1 quietThenLoudStream).1 =
      some 0 ∧
    (calculate_recall_only thresholdDetector (fun _ => 0) 1
        (calculate_recall_only thresholdDetector (fun _ => 0) 1 quietThenLoudStream).2).1 =
      some 100 := by
  constructor
  · decide
  · decide

/-- C8 amended: the recall is a deterministic function of the slope and the
1480 draws the run reads from the generator — two runs that read identical
draw sequences (for instance after reseeding the generator identically)
return identical recall. -/
theorem recall_determined_by_draws (detector : List ℚ → List Bool)
    (season : ℕ → ℚ) (slope : ℚ) (r r' : RngStream)
    (h : ∀ k, k < DAYS + 20 → r.g (r.pos + k) = r'.g (r'.pos + k)) :
    (calculate_recall_only detector season slope r).1 =
      (calculate_recall_only detector season slope r').1 := by
  have hnoise : (normalDraws 2 DAYS r).1 = (normalDraws 2 DAYS r').1 := by
    simp only [normalDraws]
    refine List.map_congr_left (fun k hk => ?_)
    have hk' : k < DAYS := List.mem_range.mp hk
    rw [h k (by omega)]
  have hburst : (normalDraws 8 20 (generate_clean_signal season r).2).1 =
      (normalDraws 8 20 (generate_clean_signal season r').2).1 := by
    simp only [generate_clean_signal, normalDraws]
    refine List.map_congr_left (fun k hk => ?_)
    have hk' : k < 20 := List.mem_range.mp hk
    rw [Nat.add_assoc r.pos DAYS k, Nat.add_assoc r'.pos DAYS k, h (DAYS + k) (by omega)]
  have hsig : (generate_clean_signal season r).1.1 =
      (generate_clean_signal season r').1.1 := by
    simp only [generate_clean_signal]
    rw [hnoise]
  have hl : (calculate_recall_only detector season slope r).1 =
      recallOf detector (normalDraws 8 20 (generate_clean_signal season r).2).1 slope
        (generate_clean_signal season r).1.1 (generate_clean_signal season r).1.2 := rfl
  have hr : (calculate_recall_only detector season slope r').1 =
      recallOf detector (normalDraws 8 20 (generate_clean_signal season r').2).1 slope
        (generate_clean_signal season r').1.1 (generate_clean_signal season r').1.2 := rfl
  have hgt : (generate_clean_signal season r).1.2 =
      (generate_clean_signal season r').1.2 := rfl
  rw [hl, hr, hburst, hsig, hgt]

/-- Witness for C8 (amended): two streams over the all-zero draw function with
different cursors read the same draws, so the recalls coincide. -/
theorem recall_determined_by_draws_witness :
    (calculate_recall_only (fun l => l.map (fun _ => true)) (fun _ => 0) 1
        ⟨fun _ => 0, 0⟩).1 =
      (calculate_recall_only (fun l => l.map (fun _ => true)) (fun _ => 0) 1
        ⟨fun _ => 0, 5⟩).1 :=
  recall_determined_by_draws (fun l => l.map (fun _ => true)) (fun _ => 0) 1
    ⟨fun _ => 0, 0⟩ ⟨fun _ => 0, 5⟩ (fun _ _ => rfl)

theorem string_append_cancel {a b c : String} (h : a ++ c = b ++ c) : a = b := by
  have h2 : a.data ++ c.data = b.data ++ c.data := by
    rw [← String.data_append, ← String.data_append, h]
  exact String.ext (List.append_cancel_right h2)

theorem lookup_replaceCol_self (cs : List (String × List ℚ)) (c : String) (v : List ℚ)
    (h : cs.any (fun p => p.1 = c) = true) :
    lookupCol (replaceCol cs c v) c = some v := by
  induction cs with
  | nil => simp at h
  | cons p t ih =>
    obtain ⟨n, w⟩ := p
    by_cases hn : n = c
    · simp [replaceCol, hn, lookupCol]
    · simp only [List.any_cons, decide_eq_true_eq, Bool.or_eq_true] at h
      rcases h with h | h
      · exact absurd h hn
      · simp [replaceCol, hn, lookupCol, ih h]

theorem lookup_replaceCol_ne (cs : List (String × List ℚ)) (c : String) (v : List ℚ)
    (c' : String) (h : c' ≠ c) :
    lookupCol (replaceCol cs c v) c' = lookupCol cs c' := by
  induction cs with
  | nil => rfl
  | cons p t ih =>
    obtain ⟨n, w⟩ := p
    by_cases hn : n = c
    · subst hn
      simp only [replaceCol, if_pos rfl, lookupCol]
      rw [if_neg (fun hc => h hc.symm), if_neg (fun hc => h hc.symm), ih]
    · simp only [replaceCol, if_neg hn, lookupCol]
      by_cases hc : n = c'
      · rw [if_pos hc, if_pos hc]
      · rw [if_neg hc, if_neg hc, ih]

theorem lookup_append (a b : List (String × List ℚ)) (c : String) :
    lookupCol (a ++ b) c =
      match lookupCol a c with
      | some v => some v
      | none => lookupCol b c := by
  induction a with
  | nil => simp [lookupCol]
  | cons p t ih =>
    obtain ⟨n, w⟩ := p
    by_cases hn : n = c
    · simp [lookupCol, hn]
    · simp [lookupCol, hn, ih]

theorem lookup_none_of_not_any (cs : List (String × List ℚ)) (c : String)
    (h : cs.any (fun p => p.1 = c) = false) : lookupCol cs c = none := by
  induction cs with
  | nil => rfl
  | cons p t ih =>
    obtain ⟨n, w⟩ := p
    simp only [List.any_cons, Bool.or_eq_false_iff, decide_eq_false_iff_not] at h
    simp [lookupCol, h.1, ih h.2]

theorem DF.get_setCol (df : DF) (c : String) (v : List ℚ) (c' : String) :
    (df.setCol c v).get c' = if c' = c then some v else df.get c' := by
  unfold DF.setCol DF.get
  by_cases hany : df.cols.any (fun p => p.1 = c) = true
  · rw [if_pos hany]
    by_cases hc : c' = c
    · subst hc
      rw [if_pos rfl]
      exact lookup_replaceCol_self df.cols c' v hany
    · rw [if_neg hc]
      exact lookup_replaceCol_ne df.cols c v c' hc
  · rw [if_neg hany]
    rw [lookup_append]
    by_cases hc : c' = c
    · subst hc
      rw [lookup_none_of_not_any df.cols c' (by revert hany; cases df.cols.any (fun p => p.1 = c') <;> simp)]
      simp [lookupCol, if_pos rfl]
    · rw [if_neg hc]
      cases hl : lookupCol df.cols c' with
      | some w => rfl
      | none =>
        simp only [lookupCol]
        rw [if_neg (fun hcc => hc hcc.symm)]

theorem DF.nrows_setCol (df : DF) (c : String) (v : List ℚ) :
    (df.setCol c v).nrows = df.nrows := by
  unfold DF.setCol
  split <;> rfl

theorem get_init_foldl (nr : ℕ) :
    ∀ (stations : List String) (acc : DF) (c : String),
      ((stations.foldl (fun a s => a.setCol (s ++ "_anomaly")
          (List.replicate nr 1)) acc).get c) =
        if stations.any (fun s => c = s ++ "_anomaly") then
          some (List.replicate nr 1)
        else acc.get c := by
  intro stations
  induction stations with
  | nil => intro acc c; simp
  | cons s rest ih =>
    intro acc c
    rw [List.foldl_cons, ih, DF.get_setCol]
    by_cases hc : c = s ++ "_anomaly" <;>
      by_cases hr : rest.any (fun t => c = t ++ "_anomaly") = true <;>
        simp [hc, hr]

theorem get_initAnomalyCols (df : DF) (stations : List String) (c : String) :
    (initAnomalyCols df stations).get c =
      if stations.any (fun s => c = s ++ "_anomaly") then
        some (List.replicate df.nrows 1)
      else df.get c :=
  get_init_foldl df.nrows stations df c

theorem processStation_eq (fp : List (ℚ × ℚ × ℚ) → List ℚ) (df : DF) (acc : DF)
    (s : String) (hmb : normColsPresent df s = true → mmColsPresent df s = true) :
    processStation fp df acc s =
      Except.ok (if skippedStation df s = true then acc
        else acc.setCol (s ++ "_anomaly")
          (scatterMasked ((acc.get (s ++ "_anomaly")).getD []) (stationMask df s)
            (fp (trainX df s)))) := by
  rcases he : df.get (s ++ "_east_norm") with _ | e
  · simp [processStation, skippedStation, normColsPresent, he]
  rcases hn : df.get (s ++ "_north_norm") with _ | n
  · simp [processStation, skippedStation, normColsPresent, he, hn]
  rcases hu : df.get (s ++ "_up_norm") with _ | u
  · simp [processStation, skippedStation, normColsPresent, he, hn, hu]
  have hnorm : normColsPresent df s = true := by
    simp [normColsPresent, he, hn, hu]
  have hmm' := hmb hnorm
  simp only [mmColsPresent, Bool.and_eq_true, Option.isSome_iff_exists] at hmm'
  obtain ⟨⟨⟨em, hem⟩, ⟨nm, hnm⟩⟩, ⟨um, hum⟩⟩ := hmm'
  have hmask : stationMask df s = activeMaskOf em nm um := by
    simp [stationMask, hem, hnm, hum]
  have hrows : stationTrainRows df s = zip3With (fun a b c => (a, b, c)) e n u := by
    simp [stationTrainRows, he, hn, hu]
  have hskip : skippedStation df s =
      (maskFilter (zip3With (fun a b c => (a, b, c)) e n u)
        (activeMaskOf em nm um)).isEmpty := by
    simp [skippedStation, hnorm, trainX, hrows, hmask]
  simp only [processStation, he, hn, hu, hem, hnm, hum]
  by_cases hemp : (maskFilter (zip3With (fun a b c => (a, b, c)) e n u)
      (activeMaskOf em nm um)).isEmpty = true
  · rw [if_pos hemp, hskip, if_pos hemp]
  · rw [if_neg hemp, hskip, if_neg hemp]
    rw [trainX, hrows, hmask]

theorem nodup_stationNames (df : DF) : (stationNames df).Nodup := by
  unfold stationNames
  exact ((List.perm_insertionSort _ _).nodup_iff).mpr (List.nodup_dedup _)

theorem foldlM_processStation (fp : List (ℚ × ℚ × ℚ) → List ℚ) (df : DF) :
    ∀ (L : List String), L.Nodup →
      (∀ s ∈ L, normColsPresent df s = true → mmColsPresent df s = true) →
      ∀ (acc : DF),
        ∃ r, L.foldlM (fun a s => processStation fp df a s) acc = Except.ok r ∧
          (∀ c, (∀ s ∈ L, c ≠ s ++ "_anomaly") → r.get c = acc.get c) ∧
          (∀ s ∈ L, r.get (s ++ "_anomaly") =
            stationEffect fp df s (acc.get (s ++ "_anomaly"))) := by
  intro L
  induction L with
  | nil =>
    intro _ _ acc
    exact ⟨acc, rfl, fun c _ => rfl, fun s hs => absurd hs (List.not_mem_nil s)⟩
  | cons s0 rest ih =>
    intro hnd hmb acc
    have hs0 : s0 ∉ rest := (List.nodup_cons.mp hnd).1
    have hndr : rest.Nodup := (List.nodup_cons.mp hnd).2
    have hstep := processStation_eq fp df acc s0 (hmb s0 (List.mem_cons_self s0 rest))
    set acc1 := if skippedStation df s0 = true then acc
      else acc.setCol (s0 ++ "_anomaly")
        (scatterMasked ((acc.get (s0 ++ "_anomaly")).getD []) (stationMask df s0)
          (fp (trainX df s0))) with hacc1
    obtain ⟨r, hfold, hframe, hval⟩ :=
      ih hndr (fun s hs => hmb s (List.mem_cons_of_mem s0 hs)) acc1
    refine ⟨r, ?_, ?_, ?_⟩
    · rw [List.foldlM_cons, hstep]
      exact hfold
    · intro c hc
      rw [hframe c (fun s hs => hc s (List.mem_cons_of_mem s0 hs))]
      have hne : c ≠ s0 ++ "_anomaly" := hc s0 (List.mem_cons_self s0 rest)
      rw [hacc1]
      split
      · rfl
      · rw [DF.get_setCol, if_neg hne]
    · intro s hs
      rcases List.mem_cons.mp hs with hseq | hsr
      · subst hseq
        have hne : ∀ t ∈ rest, s ++ "_anomaly" ≠ t ++ "_anomaly" := by
          intro t ht heq
          exact hs0 (string_append_cancel heq ▸ ht)
        rw [hframe _ hne, hacc1]
        unfold stationEffect
        split
        · rfl
        · rw [DF.get_setCol, if_pos rfl]
      · rw [hval s hsr]
        have hne : s ++ "_anomaly" ≠ s0 ++ "_anomaly" := by
          intro heq
          exact hs0 (string_append_cancel heq ▸ hsr)
        have : acc1.get (s ++ "_anomaly") = acc.get (s ++ "_anomaly") := by
          rw [hacc1]
          split
          · rfl
          · rw [DF.get_setCol, if_neg hne]
        rw [this]

/-- The final anomaly column of every detected station, and the batch's
success, under the well-formedness of the preprocessed matrix. -/
theorem detect_result_characterization (fp : List (ℚ × ℚ × ℚ) → List ℚ) (df : DF)
    (hmb : mmBacked df) :
    runsOk (detect_anomalies_per_station fp df) = true ∧
    (∀ c, (∀ s ∈ stationNames df, c ≠ s ++ "_anomaly") →
      resultCol (detect_anomalies_per_station fp df) c = df.get c) ∧
    ∀ s ∈ stationNames df,
      resultCol (detect_anomalies_per_station fp df) (s ++ "_anomaly") =
        stationEffect fp df s (some (List.replicate df.nrows 1)) := by
  obtain ⟨r, hfold, hframe, hval⟩ :=
    foldlM_processStation fp df (stationNames df) (nodup_stationNames df) hmb
      (initAnomalyCols df (stationNames df))
  have hrun : detect_anomalies_per_station fp df = Except.ok r := hfold
  refine ⟨by rw [hrun]; rfl, ?_, ?_⟩
  · intro c hc
    have h1 : resultCol (detect_anomalies_per_station fp df) c = r.get c := by
      rw [hrun]; rfl
    rw [h1, hframe c hc, get_initAnomalyCols]
    rw [if_neg ?_]
    intro hany
    obtain ⟨s, hs, hcs⟩ := List.any_eq_true.mp hany
    exact hc s hs (of_decide_eq_true hcs)
  · intro s hs
    have h1 : resultCol (detect_anomalies_per_station fp df)
        (s ++ "_anomaly") = r.get (s ++ "_anomaly") := by
      rw [hrun]; rfl
    rw [h1, hval s hs, get_initAnomalyCols, if_pos ?_]
    exact List.any_eq_true.mpr ⟨s, hs, by simp⟩

theorem length_scatterMasked :
    ∀ (old : List ℚ) (mask : List Bool) (preds : List ℚ),
      (scatterMasked old mask preds).length = old.length := by
  intro old
  induction old with
  | nil => intro mask preds; rfl
  | cons o os ih =>
    intro mask preds
    cases mask with
    | nil => rfl
    | cons b bs =>
      cases b
      · simp [scatterMasked, ih]
      · cases preds with
        | nil => simp [scatterMasked, ih]
        | cons p ps => simp [scatterMasked, ih]

theorem mem_scatterMasked :
    ∀ (old : List ℚ) (mask : List Bool) (preds : List ℚ) (x : ℚ),
      x ∈ scatterMasked old mask preds → x ∈ old ∨ x ∈ preds := by
  intro old
  induction old with
  | nil => intro mask preds x hx; simp [scatterMasked] at hx
  | cons o os ih =>
    intro mask preds x hx
    cases mask with
    | nil => exact Or.inl hx
    | cons b bs =>
      cases b
      · simp only [scatterMasked, List.mem_cons] at hx
        rcases hx with hx | hx
        · exact Or.inl (by simp [hx])
        · rcases ih bs preds x hx with h | h
          · exact Or.inl (List.mem_cons_of_mem o h)
          · exact Or.inr h
      · cases preds with
        | nil =>
          simp only [scatterMasked, List.mem_cons] at hx
          rcases hx with hx | hx
          · exact Or.inl (by simp [hx])
          · rcases ih bs [] x hx with h | h
            · exact Or.inl (List.mem_cons_of_mem o h)
            · exact Or.inr h
        | cons p ps =>
          simp only [scatterMasked, List.mem_cons] at hx
          rcases hx with hx | hx
          · exact Or.inr (by simp [hx])
          · rcases ih bs ps x hx with h | h
            · exact Or.inl (List.mem_cons_of_mem o h)
            · exact Or.inr (List.mem_cons_of_mem p h)

theorem getD_scatterMasked :
    ∀ (old : List ℚ) (mask : List Bool) (preds : List ℚ),
      mask.length = old.length → preds.length = mask.count true →
      ∀ i, i < old.length →
        (scatterMasked old mask preds).getD i 0 =
          if mask.getD i false = true then
            preds.getD ((mask.take i).count true) 0
          else old.getD i 0 := by
  intro old
  induction old with
  | nil => intro mask preds _ _ i hi; simp at hi
  | cons o os ih =>
    intro mask preds hlm hlp i hi
    cases mask with
    | nil => simp at hlm
    | cons b bs =>
      have hlm' : bs.length = os.length := by simpa using hlm
      cases b
      · have hlp' : preds.length = bs.count true := by
          simpa [List.count_cons] using hlp
        cases i with
        | zero => simp [scatterMasked]
        | succ i' =>
          have hi' : i' < os.length := by simpa using hi
          simp only [scatterMasked, List.getD_cons_succ, List.take_succ_cons]
          rw [ih bs preds hlm' hlp' i' hi']
          simp [List.count_cons]
      · have hc : preds.length = bs.count true + 1 := by
          simpa [List.count_cons] using hlp
        cases preds with
        | nil => simp at hc
        | cons p ps =>
          have hlp' : ps.length = bs.count true := by simpa using hc
          cases i with
          | zero => simp [scatterMasked]
          | succ i' =>
            have hi' : i' < os.length := by simpa using hi
            simp only [scatterMasked, List.getD_cons_succ, List.take_succ_cons]
            rw [ih bs ps hlm' hlp' i' hi']
            by_cases hb : bs.getD i' false = true
            · rw [if_pos hb, if_pos hb]
              simp [List.count_cons]
            · rw [if_neg hb, if_neg hb]

theorem length_zip3With {α β γ δ : Type} (f : α → β → γ → δ) :
    ∀ (a : List α) (b : List β) (c : List γ),
      (zip3With f a b c).length = min a.length (min b.length c.length) := by
  intro a
  induction a with
  | nil => intro b c; simp [zip3With]
  | cons x xs ih =>
    intro b c
    cases b with
    | nil => simp [zip3With]
    | cons y ys =>
      cases c with
      | nil => simp [zip3With]
      | cons z zs =>
        simp only [zip3With, List.length_cons, ih]
        omega

theorem getD_zip3With {α β γ δ : Type} (f : α → β → γ → δ)
    (da : α) (db : β) (dc : γ) (dd : δ) :
    ∀ (a : List α) (b : List β) (c : List γ) (i : ℕ),
      i < (zip3With f a b c).length →
      (zip3With f a b c).getD i dd = f (a.getD i da) (b.getD i db) (c.getD i dc) := by
  intro a
  induction a with
  | nil => intro b c i hi; simp [zip3With] at hi
  | cons x xs ih =>
    intro b c i hi
    cases b with
    | nil => simp [zip3With] at hi
    | cons y ys =>
      cases c with
      | nil => simp [zip3With] at hi
      | cons z zs =>
        cases i with
        | zero => simp [zip3With]
        | succ i' =>
          have hi' : i' < (zip3With f xs ys zs).length := by
            simpa [zip3With] using hi
          simp only [zip3With, List.getD_cons_succ]
          exact ih ys zs i' hi'

theorem length_maskFilter {α : Type} :
    ∀ (xs : List α) (bs : List Bool), xs.length = bs.length →
      (maskFilter xs bs).length = bs.count true := by
  intro xs
  induction xs with
  | nil =>
    intro bs h
    cases bs with
    | nil => rfl
    | cons b bs' => simp at h
  | cons x xs' ih =>
    intro bs h
    cases bs with
    | nil => simp at h
    | cons b bs' =>
      have h' : xs'.length = bs'.length := by simpa using h
      cases b
      · simp [maskFilter, ih _ h', List.count_cons]
      · simp [maskFilter, ih _ h', List.count_cons]

theorem lookup_mem :
    ∀ (cs : List (String × List ℚ)) (c : String) (v : List ℚ),
      lookupCol cs c = some v → ∃ p ∈ cs, (p : String × List ℚ).2 = v := by
  intro cs
  induction cs with
  | nil => intro c v h; simp [lookupCol] at h
  | cons p t ih =>
    intro c v h
    obtain ⟨n, w⟩ := p
    by_cases hn : n = c
    · simp only [lookupCol, if_pos hn] at h
      exact ⟨(n, w), List.mem_cons_self _ _, by simpa using h⟩
    · simp only [lookupCol, if_neg hn] at h
      obtain ⟨q, hq, hqv⟩ := ih c v h
      exact ⟨q, List.mem_cons_of_mem _ hq, hqv⟩

theorem get_length (df : DF) (hwf : wfLengths df) (c : String) (v : List ℚ)
    (h : df.get c = some v) : v.length = df.nrows := by
  obtain ⟨p, hp, hpv⟩ := lookup_mem df.cols c v h
  rw [← hpv]
  exact hwf p hp

theorem getD_replicate_lt {α : Type} (n : ℕ) (c : α) (i : ℕ) (d : α) (h : i < n) :
    (List.replicate n c).getD i d = c := by
  rw [List.getD_eq_getElem _ _ (by simpa using h)]
  simp

/-- C2 counterexample: on a matrix whose only station `A` lacks the
`A_north_norm` and `A_up_norm` columns, the station is skipped, yet the written
results still contain an `A_anomaly` column (holding the default NORMAL label
`1`): the skipped station is not omitted from the scoring output. -/
theorem skipped_station_present_in_output :
    skippedStation ⟨1, [("A_east_norm", [5])]⟩ "A" = true ∧
    runsOk (detect_anomalies_per_station (fun xs => xs.map (fun _ => -1))
      ⟨1, [("A_east_norm", [5])]⟩) = true ∧
    resultCol (detect_anomalies_per_station (fun xs => xs.map (fun _ => -1))
      ⟨1, [("A_east_norm", [5])]⟩) "A_anomaly" = some [1] := by
  refine ⟨by decide, by decide, by decide⟩

/-- C2 amended: every skipped station (missing feature columns or zero active
days) still appears in the scoring output, but only with the default NORMAL
label `1` on every day — it receives no model scores; every non-skipped
station's column is written from the model's predictions over its active days;
and the batch completes without raising. -/
theorem skip_keeps_default_labels (fp : List (ℚ × ℚ × ℚ) → List ℚ) (df : DF)
    (hmb : mmBacked df) :
    runsOk (detect_anomalies_per_station fp df) = true ∧
    ∀ s ∈ stationNames df,
      (skippedStation df s = true →
        resultCol (detect_anomalies_per_station fp df) (s ++ "_anomaly") =
          some (List.replicate df.nrows 1)) ∧
      (skippedStation df s = false →
        resultCol (detect_anomalies_per_station fp df) (s ++ "_anomaly") =
          some (scatterMasked (List.replicate df.nrows 1) (stationMask df s)
            (fp (trainX df s)))) := by
  obtain ⟨hok, hframe, hval⟩ := detect_result_characterization fp df hmb
  refine ⟨hok, fun s hs => ⟨fun hsk => ?_, fun hsk => ?_⟩⟩
  · rw [hval s hs]
    simp only [stationEffect]
    rw [if_pos hsk]
  · rw [hval s hs]
    simp only [stationEffect]
    rw [if_neg (by simp [hsk])]
    rfl

/-- Witness for C2 (amended): station `A` (missing `A_north_norm`, `A_up_norm`)
is skipped and keeps the all-NORMAL column; station `B` is scored from the
model's predictions; the batch succeeds. -/
theorem skip_keeps_default_labels_witness :
    runsOk (detect_anomalies_per_station (fun xs => xs.map (fun _ => -1))
      ⟨1, [("A_east_norm", [5]), ("B_east_norm", [2]), ("B_north_norm", [3]),
        ("B_up_norm", [4]), ("B_east", [1]), ("B_north", [0]), ("B_up", [0])]⟩) = true ∧
    resultCol (detect_anomalies_per_station (fun xs => xs.map (fun _ => -1))
      ⟨1, [("A_east_norm", [5]), ("B_east_norm", [2]), ("B_north_norm", [3]),
        ("B_up_norm", [4]), ("B_east", [1]), ("B_north", [0]), ("B_up", [0])]⟩)
      ("A" ++ "_anomaly") = some (List.replicate 1 1) ∧
    resultCol (detect_anomalies_per_station (fun xs => xs.map (fun _ => -1))
      ⟨1, [("A_east_norm", [5]), ("B_east_norm", [2]), ("B_north_norm", [3]),
        ("B_up_norm", [4]), ("B_east", [1]), ("B_north", [0]), ("B_up", [0])]⟩)
      ("B" ++ "_anomaly") = some [-1] := by
  obtain ⟨hok, hall⟩ := skip_keeps_default_labels (fun xs => xs.map (fun _ => -1))
    ⟨1, [("A_east_norm", [5]), ("B_east_norm", [2]), ("B_north_norm", [3]),
      ("B_up_norm", [4]), ("B_east", [1]), ("B_north", [0]), ("B_up", [0])]⟩
    (by decide)
  refine ⟨hok, (hall "A" (by decide)).1 (by decide), ?_⟩
  have hB := (hall "B" (by decide)).2 (by decide)
  rw [hB]
  decide

/-- C3: for every station (whose physical-unit axis columns exist), the label
on every inactive day — where the sum of absolute axis values does not exceed
the epsilon `1e-4` — is NORMAL (`1`), and a label different from NORMAL occurs
only on an active day, where the label is the fitted model's prediction for
that day's training row. -/
theorem detect_inactive_days_normal (fp : List (ℚ × ℚ × ℚ) → List ℚ) (df : DF)
    (hfp_len : ∀ xs, (fp xs).length = xs.length)
    (hwf : wfLengths df) (hmb : mmBacked df)
    (s : String) (hs : s ∈ stationNames df)
    (em nm um : List ℚ)
    (hem : df.get (s ++ "_east") = some em)
    (hnm : df.get (s ++ "_north") = some nm)
    (hum : df.get (s ++ "_up") = some um)
    (i : ℕ) (hi : i < df.nrows) :
    (¬ ((1 : ℚ) / 10000 < |em.getD i 0| + |nm.getD i 0| + |um.getD i 0|) →
      labelAt (detect_anomalies_per_station fp df) s i = some 1) ∧
    (labelAt (detect_anomalies_per_station fp df) s i ≠ some 1 →
      ((1 : ℚ) / 10000 < |em.getD i 0| + |nm.getD i 0| + |um.getD i 0|) ∧
      labelAt (detect_anomalies_per_station fp df) s i =
        some ((fp (trainX df s)).getD (((stationMask df s).take i).count true) 0)) := by
  obtain ⟨hok, hframe, hval⟩ := detect_result_characterization fp df hmb
  have hlab : labelAt (detect_anomalies_per_station fp df) s i =
      (stationEffect fp df s (some (List.replicate df.nrows 1))).map
        (fun l => l.getD i 0) := by
    rw [labelAt, hval s hs]
  have hmaskdef : stationMask df s = activeMaskOf em nm um := by
    simp [stationMask, hem, hnm, hum]
  have hml : (stationMask df s).length = df.nrows := by
    rw [hmaskdef, activeMaskOf, length_zip3With,
      get_length df hwf _ _ hem, get_length df hwf _ _ hnm, get_length df hwf _ _ hum]
    simp
  have hmaski : (stationMask df s).getD i false =
      decide ((1 : ℚ) / 10000 < |em.getD i 0| + |nm.getD i 0| + |um.getD i 0|) := by
    rw [hmaskdef, activeMaskOf]
    refine getD_zip3With _ 0 0 0 false em nm um i ?_
    have : (zip3With (fun a b c => decide ((1 : ℚ) / 10000 < |a| + |b| + |c|))
        em nm um).length = df.nrows := by
      rw [← activeMaskOf, ← hmaskdef]
      exact hml
    omega
  by_cases hskip : skippedStation df s = true
  · have heff : stationEffect fp df s (some (List.replicate df.nrows 1)) =
        some (List.replicate df.nrows 1) := by
      simp only [stationEffect]
      rw [if_pos hskip]
    have h1 : labelAt (detect_anomalies_per_station fp df) s i = some 1 := by
      rw [hlab, heff, Option.map_some', getD_replicate_lt _ _ _ _ hi]
    exact ⟨fun _ => h1, fun hne => absurd h1 hne⟩
  · have heff : stationEffect fp df s (some (List.replicate df.nrows 1)) =
        some (scatterMasked (List.replicate df.nrows 1) (stationMask df s)
          (fp (trainX df s))) := by
      simp only [stationEffect]
      rw [if_neg hskip]
      rfl
    have hnorm : normColsPresent df s = true := by
      by_contra hn
      exact hskip (by simp [skippedStation, hn])
    have hnorm' := hnorm
    simp only [normColsPresent, Bool.and_eq_true, Option.isSome_iff_exists] at hnorm'
    obtain ⟨⟨⟨e, he⟩, ⟨n', hn'⟩⟩, ⟨u, hu⟩⟩ := hnorm'
    have hrowsdef : stationTrainRows df s = zip3With (fun a b c => (a, b, c)) e n' u := by
      simp [stationTrainRows, he, hn', hu]
    have hrowlen : (stationTrainRows df s).length = df.nrows := by
      rw [hrowsdef, length_zip3With, get_length df hwf _ _ he,
        get_length df hwf _ _ hn', get_length df hwf _ _ hu]
      simp
    have hpl : (fp (trainX df s)).length = (stationMask df s).count true := by
      rw [hfp_len, trainX, length_maskFilter _ _ (by rw [hrowlen, hml])]
    have hgd := getD_scatterMasked (List.replicate df.nrows 1) (stationMask df s)
      (fp (trainX df s)) (by rw [hml]; simp) hpl i (by simpa using hi)
    have hlab2 : labelAt (detect_anomalies_per_station fp df) s i =
        some (if (stationMask df s).getD i false = true then
          (fp (trainX df s)).getD (((stationMask df s).take i).count true) 0
        else 1) := by
      rw [hlab, heff, Option.map_some', hgd, getD_replicate_lt _ _ _ _ hi]
    constructor
    · intro hinact
      have hmf : (stationMask df s).getD i false = false := by
        rw [hmaski]
        exact decide_eq_false hinact
      rw [hlab2, hmf]
      simp
    · intro hne
      by_cases hmt : (stationMask df s).getD i false = true
      · refine ⟨of_decide_eq_true (hmaski ▸ hmt), ?_⟩
        rw [hlab2, if_pos hmt]
      · exact absurd (by rw [hlab2, if_neg hmt]) hne

/-- Witness for C3: station `C` over 2 days, day 0 inactive (all-zero mm axes),
day 1 active; the inactive day's label is NORMAL. -/
theorem detect_inactive_days_normal_witness :
    labelAt (detect_anomalies_per_station (fun xs => xs.map (fun _ => -1))
      ⟨2, [("C_east_norm", [1, 2]), ("C_north_norm", [0, 0]), ("C_up_norm", [0, 0]),
        ("C_east", [0, 5]), ("C_north", [0, 0]), ("C_up", [0, 0])]⟩) "C" 0 = some 1 :=
  (detect_inactive_days_normal (fun xs => xs.map (fun _ => -1))
    ⟨2, [("C_east_norm", [1, 2]), ("C_north_norm", [0, 0]), ("C_up_norm", [0, 0]),
      ("C_east", [0, 5]), ("C_north", [0, 0]), ("C_up", [0, 0])]⟩
    (fun xs => by rw [List.length_map])
    (by decide) (by decide) "C" (by decide) [0, 5] [0, 0] [0, 0]
    (by decide) (by decide) (by decide) 0 (by decide)).1 (by decide)

/-- C10: the batch preserves every input column unchanged in the results it
writes; for each detected station it adds one anomaly column, of full calendar
length, whose every value is `1` or `-1`; and no other column is touched. -/
theorem detect_preserves_columns (fp : List (ℚ × ℚ × ℚ) → List ℚ) (df : DF)
    (hfp_val : ∀ xs, ∀ v ∈ fp xs, v = (1 : ℚ) ∨ v = -1)
    (hclash : noAnomalyClash df) (hmb : mmBacked df) :
    runsOk (detect_anomalies_per_station fp df) = true ∧
    (∀ c v, df.get c = some v →
      resultCol (detect_anomalies_per_station fp df) c = some v) ∧
    (∀ c, (∀ s ∈ stationNames df, c ≠ s ++ "_anomaly") →
      resultCol (detect_anomalies_per_station fp df) c = df.get c) ∧
    ∀ s ∈ stationNames df, ∃ w,
      resultCol (detect_anomalies_per_station fp df) (s ++ "_anomaly") = some w ∧
      w.length = df.nrows ∧ ∀ x ∈ w, x = 1 ∨ x = -1 := by
  obtain ⟨hok, hframe, hval⟩ := detect_result_characterization fp df hmb
  refine ⟨hok, ?_, hframe, ?_⟩
  · intro c v hv
    by_cases hex : ∃ s ∈ stationNames df, c = s ++ "_anomaly"
    · obtain ⟨s, hs, rfl⟩ := hex
      rw [hclash s hs] at hv
      cases hv
    · push_neg at hex
      rw [hframe c hex, hv]
  · intro s hs
    rw [hval s hs]
    simp only [stationEffect]
    split
    · exact ⟨_, rfl, by simp, fun x hx => Or.inl (List.eq_of_mem_replicate hx)⟩
    · refine ⟨_, rfl, ?_, ?_⟩
      · simp only [Option.getD_some]
        rw [length_scatterMasked]
        simp
      · intro x hx
        simp only [Option.getD_some] at hx
        rcases mem_scatterMasked _ _ _ x hx with h | h
        · exact Or.inl (List.eq_of_mem_replicate h)
        · exact hfp_val _ _ h

/-- Witness for C10: a matrix with one station `D` and an unrelated column
`keep`; the input column is preserved and the batch succeeds. -/
theorem detect_preserves_columns_witness :
    runsOk (detect_anomalies_per_station (fun xs => xs.map (fun _ => -1))
      ⟨1, [("D_east_norm", [3]), ("D_north_norm", [0]), ("D_up_norm", [0]),
        ("D_east", [1]), ("D_north", [0]), ("D_up", [0]), ("keep", [7])]⟩) = true ∧
    resultCol (detect_anomalies_per_station (fun xs => xs.map (fun _ => -1))
      ⟨1, [("D_east_norm", [3]), ("D_north_norm", [0]), ("D_up_norm", [0]),
        ("D_east", [1]), ("D_north", [0]), ("D_up", [0]), ("keep", [7])]⟩)
      "keep" = some [7] := by
  obtain ⟨hok, hpres, hframe, hcols⟩ := detect_preserves_columns
    (fun xs => xs.map (fun _ => -1))
    ⟨1, [("D_east_norm", [3]), ("D_north_norm", [0]), ("D_up_norm", [0]),
      ("D_east", [1]), ("D_north", [0]), ("D_up", [0]), ("keep", [7])]⟩
    (fun xs v hv => Or.inr (by obtain ⟨a, _, ha⟩ := List.mem_map.mp hv; exact ha.symm))
    (by decide) (by decide)
  exact ⟨hok, hpres "keep" [7] (by decide)⟩

end

end GnssAnomaly
